import Mathlib

/-!
Shallow embedding of the pytang core: the geometry kernel (lines.py),
the shape model (shapes.py) and the docking engine (docking.py).
Python floats are modelled as real numbers.  Python's ZeroDivisionError
in the line-intersection routine is modelled by an Option result.
The max-with-sentinel reduction in gravity() is modelled as a left fold
over the candidate list with an Option accumulator, which keeps the
earliest candidate with a maximal key exactly like the source's max().
-/

namespace Pytang

noncomputable section

/-- Points and vectors are pairs of reals, as in lines.py. -/
abbrev Point := ℝ × ℝ

/-- The PRECISION epsilon constant from docking.py (1e-10). -/
def PRECISION : ℝ := 1 / 10 ^ 10

/-- lines.vectorAB: the vector from A to B. -/
def vectorAB (A B : Point) : Point := (B.1 - A.1, B.2 - A.2)

/-- lines.vector_abs: euclidean length of a vector. -/
def vector_abs (A : Point) : ℝ := Real.sqrt (A.1 ^ 2 + A.2 ^ 2)

/-- lines.distance: euclidean distance between two points. -/
def distance (A B : Point) : ℝ := Real.sqrt ((A.1 - B.1) ^ 2 + (A.2 - B.2) ^ 2)

/-- lines.scalar_product. -/
def scalar_product (A B : Point) : ℝ := A.1 * B.1 + A.2 * B.2

/-- lines.x_product: 2D scalar cross product. -/
def x_product (A B : Point) : ℝ := A.1 * B.2 - B.1 * A.2

/-- lines.transposed: rotate a vector by PI/2 counterclockwise. -/
def transposed (A : Point) : Point := (-A.2, A.1)

/-- lines.inclination: atan2 of the vector A to B, modelled by the
complex argument, which agrees with atan2 on all inputs including
atan2 0 0 = 0. -/
def inclination (A B : Point) : ℝ :=
  Complex.arg ⟨(vectorAB A B).1, (vectorAB A B).2⟩

/-- lines.intersection: two-line intersection point.  The source
raises ZeroDivisionError when the denominator is zero; this is
modelled by returning none. -/
def intersection (baseA dirA baseB dirB : Point) : Option Point :=
  let dBt := transposed dirB
  let d := scalar_product dBt dirA
  if d = 0 then none
  else
    let p := scalar_product dBt (vectorAB baseA baseB) / d
    some (baseA.1 + p * dirA.1, baseA.2 + p * dirA.2)

/-- lines.point_to_line_distance (new implementation). -/
def point_to_line_distance (A base direction : Point) : ℝ :=
  |x_product (vectorAB A base) direction| / vector_abs direction

/-- shapes.Shape payload: vertex tuple, reference point, inner radius. -/
structure Shape where
  vertices : List Point
  ref_point : Point
  r_inner : ℝ

/-- Shape.__moved_by: translate a point sequence by offset, the sign
argument being normalised to plus or minus one. -/
def moved_by (points : List Point) (offset : Point) (sign : ℝ) : List Point :=
  let sg : ℝ := if 0 ≤ sign then 1 else -1
  points.map (fun p => (p.1 + sg * offset.1, p.2 + sg * offset.2))

/-- Shape.rotate: rotate every vertex about the reference point; the
reference point and the inner radius are not assigned. -/
def Shape.rotate (s : Shape) (angle : ℝ) : Shape :=
  { s with vertices :=
      (moved_by
        ((moved_by s.vertices s.ref_point (-1)).map (fun point =>
          (point.1 * Real.cos angle - point.2 * Real.sin angle,
           point.1 * Real.sin angle + point.2 * Real.cos angle)))
        s.ref_point 1) }

/-- Shape.move_to: translate the shape so the reference point lands on
the given point. -/
def Shape.move_to (s : Shape) (point : Point) : Shape :=
  { s with
    vertices := moved_by s.vertices ((moved_by [s.ref_point] point (-1)).headI) (-1)
    ref_point := point }

/-- Shape.move_by: translate the shape by the given offset. -/
def Shape.move_by (s : Shape) (offset : Point) : Shape :=
  { s with
    ref_point := (moved_by [s.ref_point] offset 1).headI
    vertices := moved_by s.vertices offset 1 }

/-- shapes.Triangle.__init__: bisector inclinations, their
intersection as the reference point, inner radius from the distance of
that point to the A-C edge line.  Construction fails (none) exactly
when the bisector-ray intersection divides by zero. -/
def triangle (A B C : Point) : Option Shape :=
  let BAX := inclination B A
  let CAX := inclination C A
  let BCX := inclination B C
  let IAX := (BAX + CAX) / 2
  let ICX := (BCX + (CAX + Real.pi)) / 2
  (intersection A (Real.cos IAX, Real.sin IAX) C (Real.cos ICX, Real.sin ICX)).map
    (fun I => ⟨[A, B, C], I, point_to_line_distance I A (Real.cos CAX, Real.sin CAX)⟩)

/-- A single mutator call on a shape. -/
inductive Mutator where
  | rot (angle : ℝ)
  | mvTo (point : Point)
  | mvBy (offset : Point)

/-- Apply one mutator call. -/
def applyMutator (s : Shape) : Mutator → Shape
  | .rot a => s.rotate a
  | .mvTo p => s.move_to p
  | .mvBy o => s.move_by o

/-- Apply a sequence of mutator calls in order. -/
def applyMutators (s : Shape) (ms : List Mutator) : Shape :=
  ms.foldl applyMutator s

/-- docking.edges: the edge cycle of a vertex sequence, starting with
(last vertex, first vertex). -/
def edges (shape : List Point) : List (Point × Point) :=
  match shape.getLast? with
  | none => []
  | some v0 => List.zip (v0 :: shape) shape

/-- The proximity value of docking._params_gen: the minimum of the two
distances from the floating edge endpoints to the static edge line. -/
def Dval (fe se : Point × Point) : ℝ :=
  min (point_to_line_distance fe.1 se.1 (vectorAB se.1 se.2))
      (point_to_line_distance fe.2 se.1 (vectorAB se.1 se.2))

/-- The cos_theta value of docking._params_gen. -/
def cos_theta (fe se : Point × Point) : ℝ :=
  -(scalar_product (vectorAB fe.1 fe.2) (vectorAB se.1 se.2)
      / (distance fe.1 fe.2 * vector_abs (vectorAB se.1 se.2)))

/-- The overlapping value of docking._params_gen: note the fixed
assignment of the floating tail fraction to the min and the floating
head fraction to the max. -/
def overlapping (fe se : Point × Point) : ℝ :=
  vector_abs (vectorAB se.1 se.2) *
    (min (scalar_product (vectorAB se.1 se.2) (vectorAB se.1 fe.1)
            / vector_abs (vectorAB se.1 se.2) ^ 2) 1
     - max (scalar_product (vectorAB se.1 se.2) (vectorAB se.1 fe.2)
            / vector_abs (vectorAB se.1 se.2) ^ 2) 0)

/-- Body of the inner loop of docking._params_gen for one
(floating edge, static edge) pair: the rotation-direction, proximity,
angular-alignment and overlap filters in source order; a surviving
pair yields its ranking triple. -/
def pairParam (angC distT manuRot : ℝ) (fe se : Point × Point) :
    Option (ℝ × ℝ × ℝ) :=
  if x_product (vectorAB se.1 se.2) (vectorAB fe.1 fe.2) * manuRot < -PRECISION then
    none
  else if Dval fe se > distT then none
  else if cos_theta fe se < angC then none
  else if overlapping fe se < PRECISION then none
  else some (-Dval fe se, cos_theta fe se, overlapping fe se)

/-- A docking candidate: ranking triple plus (static edge, floating edge). -/
abbrev Cand := (ℝ × ℝ × ℝ) × ((Point × Point) × (Point × Point))

/-- The candidate stream of docking._params_gen, without the final
empty-tuple sentinel: floating edges outermost, then static shapes,
then static edges, with the motion-direction filter skipping a whole
floating edge. -/
def candidates (static : List (List Point)) (floating : List Point)
    (angC distT manuRot : ℝ) (manuMove : Point) : List Cand :=
  (edges floating).flatMap (fun fe =>
    if x_product (vectorAB fe.1 fe.2) manuMove > PRECISION then []
    else static.flatMap (fun sh =>
      (edges sh).filterMap (fun se =>
        (pairParam angC distT manuRot fe se).map (fun t => (t, (se, fe))))))

/-- Python tuple comparison on the three-component ranking key. -/
def keyLt (p q : ℝ × ℝ × ℝ) : Prop :=
  p.1 < q.1 ∨ (p.1 = q.1 ∧ (p.2.1 < q.2.1 ∨ (p.2.1 = q.2.1 ∧ p.2.2 < q.2.2)))

instance (p q : ℝ × ℝ × ℝ) : Decidable (keyLt p q) := by
  unfold keyLt; infer_instance

/-- One step of max(): keep the current best unless the new candidate
key is strictly greater. -/
def step (acc : Option Cand) (c : Cand) : Option Cand :=
  match acc with
  | none => some c
  | some b => if keyLt b.1 c.1 then some c else some b

/-- docking.gravity: the earliest candidate with maximal key, or none
when the generator yields only the sentinel. -/
def gravity (static : List (List Point)) (floating : List Point)
    (angC distT manuRot : ℝ) (manuMove : Point) :
    Option ((Point × Point) × (Point × Point)) :=
  ((candidates static floating angC distT manuRot manuMove).foldl step none).map
    (fun c => c.2)

/-- Modelled from the spec for the C2 comparison: the static edge
length times the length of the intersection of the unit interval with
the interval spanned by the two projection fractions. -/
def spec_overlap (fe se : Point × Point) : ℝ :=
  vector_abs (vectorAB se.1 se.2) *
    max 0
      (min (max (scalar_product (vectorAB se.1 se.2) (vectorAB se.1 fe.1)
                  / vector_abs (vectorAB se.1 se.2) ^ 2)
                (scalar_product (vectorAB se.1 se.2) (vectorAB se.1 fe.2)
                  / vector_abs (vectorAB se.1 se.2) ^ 2)) 1
       - max (min (scalar_product (vectorAB se.1 se.2) (vectorAB se.1 fe.1)
                    / vector_abs (vectorAB se.1 se.2) ^ 2)
                  (scalar_product (vectorAB se.1 se.2) (vectorAB se.1 fe.2)
                    / vector_abs (vectorAB se.1 se.2) ^ 2)) 0)

/-- Collinearity of the three triangle vertices, expressed through the
kernel cross product at vertex B. -/
def collinear3 (A B C : Point) : Prop :=
  x_product (vectorAB B A) (vectorAB B C) = 0

/-- The exact degeneracy condition of the triangle constructor: the two
averaged bisector rays are parallel.  For nonzero B-to-A and B-to-C
vectors this means the two vectors are antiparallel (B strictly between
A and C on a line); the other two disjuncts are the atan2 0 0 = 0
artifacts when a defining vertex coincides with B. -/
def bisectorParallel (A B C : Point) : Prop :=
  (vectorAB B A ≠ ((0 : ℝ), (0 : ℝ)) ∧ vectorAB B C ≠ ((0 : ℝ), (0 : ℝ)) ∧
    x_product (vectorAB B A) (vectorAB B C) = 0 ∧
    scalar_product (vectorAB B A) (vectorAB B C) < 0)
  ∨ (vectorAB B A = ((0 : ℝ), (0 : ℝ)) ∧ (vectorAB B C).2 = 0 ∧ (vectorAB B C).1 < 0)
  ∨ (vectorAB B C = ((0 : ℝ), (0 : ℝ)) ∧ (vectorAB B A).2 = 0 ∧ (vectorAB B A).1 < 0)

/-! ### Helper lemmas -/

lemma PRECISION_pos : (0 : ℝ) < PRECISION := by
  unfold PRECISION; positivity

lemma rot_zero_pass (a : ℝ) : ¬ a * (0 : ℝ) < -PRECISION := by
  rw [mul_zero]
  intro h
  have := PRECISION_pos
  linarith

lemma pairParam_none_rot (angC distT manuRot : ℝ) (fe se : Point × Point)
    (h : x_product (vectorAB se.1 se.2) (vectorAB fe.1 fe.2) * manuRot < -PRECISION) :
    pairParam angC distT manuRot fe se = none := by
  unfold pairParam
  rw [if_pos h]

lemma pairParam_none_D (angC distT manuRot : ℝ) (fe se : Point × Point)
    (h1 : ¬ x_product (vectorAB se.1 se.2) (vectorAB fe.1 fe.2) * manuRot < -PRECISION)
    (h2 : Dval fe se > distT) :
    pairParam angC distT manuRot fe se = none := by
  unfold pairParam
  rw [if_neg h1, if_pos h2]

lemma pairParam_none_cos (angC distT manuRot : ℝ) (fe se : Point × Point)
    (h1 : ¬ x_product (vectorAB se.1 se.2) (vectorAB fe.1 fe.2) * manuRot < -PRECISION)
    (h2 : ¬ Dval fe se > distT)
    (h3 : cos_theta fe se < angC) :
    pairParam angC distT manuRot fe se = none := by
  unfold pairParam
  rw [if_neg h1, if_neg h2, if_pos h3]

lemma pairParam_none_overlap (angC distT manuRot : ℝ) (fe se : Point × Point)
    (h1 : ¬ x_product (vectorAB se.1 se.2) (vectorAB fe.1 fe.2) * manuRot < -PRECISION)
    (h2 : ¬ Dval fe se > distT)
    (h3 : ¬ cos_theta fe se < angC)
    (h4 : overlapping fe se < PRECISION) :
    pairParam angC distT manuRot fe se = none := by
  unfold pairParam
  rw [if_neg h1, if_neg h2, if_neg h3, if_pos h4]

lemma pairParam_some (angC distT manuRot : ℝ) (fe se : Point × Point)
    (h1 : ¬ x_product (vectorAB se.1 se.2) (vectorAB fe.1 fe.2) * manuRot < -PRECISION)
    (h2 : ¬ Dval fe se > distT)
    (h3 : ¬ cos_theta fe se < angC)
    (h4 : ¬ overlapping fe se < PRECISION) :
    pairParam angC distT manuRot fe se =
      some (-Dval fe se, cos_theta fe se, overlapping fe se) := by
  unfold pairParam
  rw [if_neg h1, if_neg h2, if_neg h3, if_neg h4]

lemma distance_eq_sqrt (A B : Point) :
    distance A B = Real.sqrt ((vectorAB A B).1 ^ 2 + (vectorAB A B).2 ^ 2) := by
  unfold distance vectorAB
  congr 1
  ring

lemma cos_theta_ge_neg_one (fe se : Point × Point) : -1 ≤ cos_theta fe se := by
  unfold cos_theta
  have key : scalar_product (vectorAB fe.1 fe.2) (vectorAB se.1 se.2)
      / (distance fe.1 fe.2 * vector_abs (vectorAB se.1 se.2)) ≤ 1 := by
    set F := vectorAB fe.1 fe.2
    set S := vectorAB se.1 se.2
    have ha : distance fe.1 fe.2 = Real.sqrt (F.1 ^ 2 + F.2 ^ 2) := distance_eq_sqrt _ _
    have hb : vector_abs S = Real.sqrt (S.1 ^ 2 + S.2 ^ 2) := rfl
    rw [ha, hb]
    rcases eq_or_ne (Real.sqrt (F.1 ^ 2 + F.2 ^ 2) * Real.sqrt (S.1 ^ 2 + S.2 ^ 2)) 0 with h0 | h0
    · rw [h0, div_zero]; norm_num
    · have hF : (0 : ℝ) ≤ F.1 ^ 2 + F.2 ^ 2 := by positivity
      have hS : (0 : ℝ) ≤ S.1 ^ 2 + S.2 ^ 2 := by positivity
      have hpos : 0 < Real.sqrt (F.1 ^ 2 + F.2 ^ 2) * Real.sqrt (S.1 ^ 2 + S.2 ^ 2) := by
        rcases (mul_nonneg (Real.sqrt_nonneg _) (Real.sqrt_nonneg _)).lt_or_eq with h | h
        · exact h
        · exact absurd h.symm h0
      rw [div_le_one hpos]
      have lag : scalar_product F S ^ 2 + x_product F S ^ 2
          = (F.1 ^ 2 + F.2 ^ 2) * (S.1 ^ 2 + S.2 ^ 2) := by
        unfold scalar_product x_product
        ring
      calc scalar_product F S ≤ |scalar_product F S| := le_abs_self _
        _ = Real.sqrt (scalar_product F S ^ 2) := (Real.sqrt_sq_eq_abs _).symm
        _ ≤ Real.sqrt ((F.1 ^ 2 + F.2 ^ 2) * (S.1 ^ 2 + S.2 ^ 2)) := by
            apply Real.sqrt_le_sqrt
            nlinarith [sq_nonneg (x_product F S)]
        _ = Real.sqrt (F.1 ^ 2 + F.2 ^ 2) * Real.sqrt (S.1 ^ 2 + S.2 ^ 2) :=
            Real.sqrt_mul hF _
  linarith

lemma cos_pass_of_le (angC : ℝ) (h : angC ≤ -1) (fe se : Point × Point) :
    ¬ cos_theta fe se < angC := by
  have := cos_theta_ge_neg_one fe se
  intro hlt
  linarith

lemma sqrt_sixteen : Real.sqrt 16 = 4 := by
  rw [show (16 : ℝ) = 4 ^ 2 by norm_num, Real.sqrt_sq (by norm_num : (0 : ℝ) ≤ 4)]

lemma sqrt_four : Real.sqrt 4 = 2 := by
  rw [show (4 : ℝ) = 2 ^ 2 by norm_num, Real.sqrt_sq (by norm_num : (0 : ℝ) ≤ 2)]

/-! ### C4: rotation-direction filter -/

/-- C4: a candidate pair is rejected by the rotation-direction filter
exactly when cross(S, F) * manualRotateSign < -PRECISION: such a pair
yields none, and when the product is not below -PRECISION the result
is the same as with manualRotateSign = 0; moreover with
manualRotateSign = 0 the product is exactly 0, which is not below
-PRECISION, so the filter rejects nothing. -/
theorem rotation_filter_exact (angC distT manuRot : ℝ) (fe se : Point × Point) :
    (x_product (vectorAB se.1 se.2) (vectorAB fe.1 fe.2) * manuRot < -PRECISION →
      pairParam angC distT manuRot fe se = none)
  ∧ (¬ x_product (vectorAB se.1 se.2) (vectorAB fe.1 fe.2) * manuRot < -PRECISION →
      pairParam angC distT manuRot fe se = pairParam angC distT 0 fe se)
  ∧ x_product (vectorAB se.1 se.2) (vectorAB fe.1 fe.2) * (0 : ℝ) = 0
  ∧ ¬ x_product (vectorAB se.1 se.2) (vectorAB fe.1 fe.2) * (0 : ℝ) < -PRECISION := by
  refine ⟨fun h => pairParam_none_rot _ _ _ _ _ h, fun h => ?_, mul_zero _, rot_zero_pass _⟩
  unfold pairParam
  rw [if_neg h, if_neg (rot_zero_pass _)]

/-- Witness for C4 at a concrete rejecting input. -/
theorem rotation_filter_exact_witness :
    pairParam 0 0 (-1) (((0 : ℝ), 0), ((0 : ℝ), 1)) (((0 : ℝ), 0), ((1 : ℝ), 0)) = none := by
  apply (rotation_filter_exact 0 0 (-1) (((0 : ℝ), 0), ((0 : ℝ), 1))
    (((0 : ℝ), 0), ((1 : ℝ), 0))).1
  unfold x_product vectorAB PRECISION
  norm_num

/-! ### C1: proximity filter -/

/-- C1 counterexample: with distanceThreshold = 0, the larger of the
two endpoint-to-static-line distances is strictly positive, so the
claimed max-based filter would reject the pair, yet the engine keeps
it: the source takes the minimum of the two distances. -/
theorem proximity_filter_max_cex :
    max (point_to_line_distance ((3 : ℝ), 0) ((0 : ℝ), 0) ((4 : ℝ), 0))
        (point_to_line_distance ((1 : ℝ), 1) ((0 : ℝ), 0) ((4 : ℝ), 0)) > 0
  ∧ (pairParam (-2) 0 0 (((3 : ℝ), 0), ((1 : ℝ), 1)) (((0 : ℝ), 0), ((4 : ℝ), 0))).isSome
      = true := by
  have h1 : point_to_line_distance ((3 : ℝ), 0) ((0 : ℝ), 0) ((4 : ℝ), 0) = 0 := by
    unfold point_to_line_distance x_product vectorAB vector_abs
    norm_num
  have h2 : point_to_line_distance ((1 : ℝ), 1) ((0 : ℝ), 0) ((4 : ℝ), 0) = 1 := by
    unfold point_to_line_distance x_product vectorAB vector_abs
    norm_num [sqrt_sixteen]
  have hD : Dval (((3 : ℝ), 0), ((1 : ℝ), 1)) (((0 : ℝ), 0), ((4 : ℝ), 0)) = 0 := by
    unfold Dval point_to_line_distance x_product vectorAB vector_abs
    norm_num [sqrt_sixteen, min_def]
  have hov : overlapping (((3 : ℝ), 0), ((1 : ℝ), 1)) (((0 : ℝ), 0), ((4 : ℝ), 0)) = 2 := by
    unfold overlapping scalar_product vectorAB vector_abs
    norm_num [sqrt_sixteen, min_def, max_def]
  constructor
  · rw [h1, h2]
    norm_num
  · rw [pairParam_some (-2) 0 0 _ _ (rot_zero_pass _)
      (by rw [hD]; norm_num)
      (cos_pass_of_le (-2) (by norm_num) _ _)
      (by rw [hov]; intro h; have := PRECISION_pos; unfold PRECISION at this h; linarith)]
    rfl

/-- C1 amended: with the rotation-direction filter passed, the
proximity filter rejects exactly when the minimum of the two
endpoint-to-static-line distances exceeds the threshold, and that same
minimum (negated) is the distance component of the ranking tuple of
every surviving pair. -/
theorem proximity_filter_min (angC distT manuRot : ℝ) (fe se : Point × Point)
    (hrot : ¬ x_product (vectorAB se.1 se.2) (vectorAB fe.1 fe.2) * manuRot < -PRECISION) :
    (Dval fe se > distT → pairParam angC distT manuRot fe se = none)
  ∧ (∀ t, pairParam angC distT manuRot fe se = some t →
      t.1 = -Dval fe se ∧ Dval fe se ≤ distT) := by
  constructor
  · exact fun h => pairParam_none_D _ _ _ _ _ hrot h
  · intro t ht
    by_cases hD : Dval fe se > distT
    · rw [pairParam_none_D _ _ _ _ _ hrot hD] at ht
      exact absurd ht (by simp)
    · refine ⟨?_, not_lt.mp hD⟩
      by_cases hc : cos_theta fe se < angC
      · rw [pairParam_none_cos _ _ _ _ _ hrot hD hc] at ht
        exact absurd ht (by simp)
      · by_cases ho : overlapping fe se < PRECISION
        · rw [pairParam_none_overlap _ _ _ _ _ hrot hD hc ho] at ht
          exact absurd ht (by simp)
        · rw [pairParam_some _ _ _ _ _ hrot hD hc ho] at ht
          obtain rfl : (-Dval fe se, cos_theta fe se, overlapping fe se) = t :=
            Option.some_injective _ ht
          rfl

/-- Witness for C1 amended at a concrete input whose minimum distance
exceeds the threshold and is therefore rejected. -/
theorem proximity_filter_min_witness :
    pairParam 0 (1 / 2) 0 (((0 : ℝ), 1), ((1 : ℝ), 1)) (((0 : ℝ), 0), ((1 : ℝ), 0)) = none := by
  apply (proximity_filter_min 0 (1 / 2) 0 (((0 : ℝ), 1), ((1 : ℝ), 1))
    (((0 : ℝ), 0), ((1 : ℝ), 0)) (rot_zero_pass _)).1
  unfold Dval point_to_line_distance x_product vectorAB vector_abs
  norm_num [min_def]

/-! ### C2: overlap filter -/

lemma vector_abs_nonneg (A : Point) : 0 ≤ vector_abs A := Real.sqrt_nonneg _

/-- C2 counterexample: a pair whose projected interval overlaps the
unit interval in length 1/2 of the static edge (spec value 2, well
above PRECISION), which the claim says must be kept, is rejected: the
source subtracts the head fraction from the tail fraction without the
min/max assignment, giving a negative value here. -/
theorem overlap_formula_cex :
    spec_overlap (((1 : ℝ), 0), ((3 : ℝ), 0)) (((0 : ℝ), 0), ((4 : ℝ), 0)) = 2
  ∧ PRECISION < 2
  ∧ pairParam (-2) 0 0 (((1 : ℝ), 0), ((3 : ℝ), 0)) (((0 : ℝ), 0), ((4 : ℝ), 0)) = none := by
  refine ⟨?_, by unfold PRECISION; norm_num, ?_⟩
  · unfold spec_overlap scalar_product vectorAB vector_abs
    norm_num [sqrt_sixteen, min_def, max_def]
  · apply pairParam_none_overlap (-2) 0 0 _ _ (rot_zero_pass _)
      (by unfold Dval point_to_line_distance x_product vectorAB vector_abs
          norm_num [sqrt_sixteen, min_def])
      (cos_pass_of_le (-2) (by norm_num) _ _)
    unfold overlapping scalar_product vectorAB vector_abs
    rw [show ((4 : ℝ) - 0) ^ 2 + (0 - 0 : ℝ) ^ 2 = 16 by norm_num, sqrt_sixteen]
    unfold PRECISION
    norm_num [min_def, max_def]

/-- C2 amended: for every pair that reaches the overlap filter, the
computed overlap is the static edge length times
(min(tail fraction, 1) - max(head fraction, 0)) with the tail fraction
fixed as the upper bound and the head fraction as the lower bound, the
pair is rejected exactly when this value is strictly below PRECISION,
and for every surviving pair the value does equal the static edge
length times the length of the intersection of [0,1] with the interval
spanned by the two fractions. -/
theorem overlap_formula (angC distT manuRot : ℝ) (fe se : Point × Point)
    (h1 : ¬ x_product (vectorAB se.1 se.2) (vectorAB fe.1 fe.2) * manuRot < -PRECISION)
    (h2 : ¬ Dval fe se > distT)
    (h3 : ¬ cos_theta fe se < angC) :
    (pairParam angC distT manuRot fe se = none ↔ overlapping fe se < PRECISION)
  ∧ (∀ t, pairParam angC distT manuRot fe se = some t →
      t.2.2 = overlapping fe se ∧ overlapping fe se = spec_overlap fe se) := by
  constructor
  · constructor
    · intro hn
      by_contra ho
      rw [pairParam_some _ _ _ _ _ h1 h2 h3 ho] at hn
      exact absurd hn (by simp)
    · exact fun ho => pairParam_none_overlap _ _ _ _ _ h1 h2 h3 ho
  · intro t ht
    by_cases ho : overlapping fe se < PRECISION
    · rw [pairParam_none_overlap _ _ _ _ _ h1 h2 h3 ho] at ht
      exact absurd ht (by simp)
    · rw [pairParam_some _ _ _ _ _ h1 h2 h3 ho] at ht
      obtain rfl : (-Dval fe se, cos_theta fe se, overlapping fe se) = t :=
        Option.some_injective _ ht
      refine ⟨rfl, ?_⟩
      rw [not_lt] at ho
      unfold overlapping at ho
      unfold overlapping spec_overlap
      set b := vector_abs (vectorAB se.1 se.2) with hb
      set t0 := scalar_product (vectorAB se.1 se.2) (vectorAB se.1 fe.1) / b ^ 2 with ht0
      set t1 := scalar_product (vectorAB se.1 se.2) (vectorAB se.1 fe.2) / b ^ 2 with ht1
      have hb0 : 0 ≤ b := hb ▸ vector_abs_nonneg _
      have hprod : 0 < b * (min t0 1 - max t1 0) := lt_of_lt_of_le PRECISION_pos ho
      have hpar : 0 < min t0 1 - max t1 0 := by nlinarith
      have ht1t0 : t1 ≤ t0 := by
        have a1 : t1 ≤ max t1 0 := le_max_left _ _
        have a2 : min t0 1 ≤ t0 := min_le_left _ _
        linarith
      rw [max_eq_left ht1t0, min_eq_right ht1t0, max_eq_right hpar.le]

/-- Witness for C2 amended at a concrete antiparallel coincident pair. -/
theorem overlap_formula_witness :
    pairParam (-2) 0 0 (((3 : ℝ), 0), ((1 : ℝ), 0)) (((0 : ℝ), 0), ((4 : ℝ), 0)) = none
      ↔ overlapping (((3 : ℝ), 0), ((1 : ℝ), 0)) (((0 : ℝ), 0), ((4 : ℝ), 0)) < PRECISION :=
  (overlap_formula (-2) 0 0 (((3 : ℝ), 0), ((1 : ℝ), 0)) (((0 : ℝ), 0), ((4 : ℝ), 0))
    (rot_zero_pass _)
    (by unfold Dval point_to_line_distance x_product vectorAB vector_abs
        norm_num [sqrt_sixteen, min_def])
    (cos_pass_of_le (-2) (by norm_num) _ _)).1

/-! ### C9: zero manual move passes the motion filter -/

/-- C9: with manualMove = (0,0) the motion-direction filter value is
exactly 0 for every floating edge, and every (floating edge, static
edge) pair that survives the remaining filters reaches the candidate
stream: the motion filter rejects nothing during pure translation. -/
theorem zero_move_motion_filter_pass (static : List (List Point)) (floating : List Point)
    (angC distT manuRot : ℝ) (fe : Point × Point) :
    x_product (vectorAB fe.1 fe.2) ((0 : ℝ), (0 : ℝ)) = 0
  ∧ (fe ∈ edges floating → ∀ sh ∈ static, ∀ se ∈ edges sh, ∀ t,
      pairParam angC distT manuRot fe se = some t →
      (t, (se, fe)) ∈ candidates static floating angC distT manuRot ((0 : ℝ), (0 : ℝ))) := by
  have hx : x_product (vectorAB fe.1 fe.2) ((0 : ℝ), (0 : ℝ)) = 0 := by
    unfold x_product vectorAB
    ring
  refine ⟨hx, fun hfe sh hsh se hse t ht => ?_⟩
  unfold candidates
  rw [List.mem_flatMap]
  refine ⟨fe, hfe, ?_⟩
  rw [if_neg (by rw [hx]; intro h; have := PRECISION_pos; linarith :
    ¬ x_product (vectorAB fe.1 fe.2) ((0 : ℝ), (0 : ℝ)) > PRECISION)]
  rw [List.mem_flatMap]
  refine ⟨sh, hsh, ?_⟩
  rw [List.mem_filterMap]
  exact ⟨se, hse, by rw [ht]; rfl⟩

/-- Witness for C9 at a concrete one-triangle scene. -/
theorem zero_move_motion_filter_pass_witness :
    (((0 : ℝ), (1 : ℝ), (1 : ℝ)),
      ((((0 : ℝ), (0 : ℝ)), ((1 : ℝ), (0 : ℝ))), (((1 : ℝ), (0 : ℝ)), ((0 : ℝ), (0 : ℝ)))))
    ∈ candidates [[((0 : ℝ), 0), ((1 : ℝ), 0), ((0 : ℝ), 1)]]
        [((1 : ℝ), 0), ((0 : ℝ), 0), ((1 : ℝ), 1)] (-2) 0 0 ((0 : ℝ), (0 : ℝ)) := by
  have hval : pairParam (-2) 0 0 (((1 : ℝ), 0), ((0 : ℝ), 0)) (((0 : ℝ), 0), ((1 : ℝ), 0))
      = some ((0 : ℝ), (1 : ℝ), (1 : ℝ)) := by
    rw [pairParam_some (-2) 0 0 _ _ (rot_zero_pass _)
      (by unfold Dval point_to_line_distance x_product vectorAB vector_abs
          norm_num [min_def])
      (cos_pass_of_le (-2) (by norm_num) _ _)
      (by unfold overlapping scalar_product vectorAB vector_abs PRECISION
          norm_num [min_def, max_def])]
    have hD : Dval (((1 : ℝ), 0), ((0 : ℝ), 0)) (((0 : ℝ), 0), ((1 : ℝ), 0)) = 0 := by
      unfold Dval point_to_line_distance x_product vectorAB vector_abs
      norm_num [min_def]
    have hc : cos_theta (((1 : ℝ), 0), ((0 : ℝ), 0)) (((0 : ℝ), 0), ((1 : ℝ), 0)) = 1 := by
      unfold cos_theta scalar_product distance vectorAB vector_abs
      norm_num
    have hov : overlapping (((1 : ℝ), 0), ((0 : ℝ), 0)) (((0 : ℝ), 0), ((1 : ℝ), 0)) = 1 := by
      unfold overlapping scalar_product vectorAB vector_abs
      norm_num [min_def, max_def]
    rw [hD, hc, hov]
    norm_num
  exact (zero_move_motion_filter_pass [[((0 : ℝ), 0), ((1 : ℝ), 0), ((0 : ℝ), 1)]]
    [((1 : ℝ), 0), ((0 : ℝ), 0), ((1 : ℝ), 1)] (-2) 0 0
    (((1 : ℝ), 0), ((0 : ℝ), 0))).2
    (by norm_num [edges])
    [((0 : ℝ), 0), ((1 : ℝ), 0), ((0 : ℝ), 1)] (by norm_num)
    (((0 : ℝ), 0), ((1 : ℝ), 0)) (by norm_num [edges])
    ((0 : ℝ), (1 : ℝ), (1 : ℝ)) hval

/-! ### C10: unguarded zero denominator for a zero-length floating edge -/

/-- C10: a floating shape with two equal adjacent vertices produces a
zero-length floating edge that passes the motion-direction,
rotation-direction and proximity filters for every manual move vector
and every rotate sign, after which the cos_theta denominator
length(F) * length(S) is exactly 0: the source performs an unguarded
float division by zero there (a Python ZeroDivisionError), there being
no zero-length-edge guard in the engine. -/
theorem dock_division_by_zero_reachable (manuRot : ℝ) (manuMove : Point) :
    (((0 : ℝ), (0 : ℝ)), ((0 : ℝ), (0 : ℝ)))
        ∈ edges [((0 : ℝ), (0 : ℝ)), ((0 : ℝ), (0 : ℝ)), ((1 : ℝ), (0 : ℝ))]
  ∧ x_product (vectorAB ((0 : ℝ), (0 : ℝ)) ((0 : ℝ), (0 : ℝ))) manuMove ≤ PRECISION
  ∧ (((0 : ℝ), (0 : ℝ)), ((1 : ℝ), (0 : ℝ)))
        ∈ edges [((0 : ℝ), (0 : ℝ)), ((1 : ℝ), (0 : ℝ)), ((0 : ℝ), (1 : ℝ))]
  ∧ -PRECISION ≤ x_product (vectorAB ((0 : ℝ), (0 : ℝ)) ((1 : ℝ), (0 : ℝ)))
        (vectorAB ((0 : ℝ), (0 : ℝ)) ((0 : ℝ), (0 : ℝ))) * manuRot
  ∧ Dval ((((0 : ℝ), (0 : ℝ)), ((0 : ℝ), (0 : ℝ))))
        ((((0 : ℝ), (0 : ℝ)), ((1 : ℝ), (0 : ℝ)))) ≤ 0
  ∧ distance ((0 : ℝ), (0 : ℝ)) ((0 : ℝ), (0 : ℝ)) *
        vector_abs (vectorAB ((0 : ℝ), (0 : ℝ)) ((1 : ℝ), (0 : ℝ))) = 0 := by
  have hP := PRECISION_pos
  refine ⟨by norm_num [edges], ?_, by norm_num [edges], ?_, ?_, ?_⟩
  · unfold x_product vectorAB
    norm_num
    linarith
  · unfold x_product vectorAB
    norm_num
    linarith
  · unfold Dval point_to_line_distance x_product vectorAB vector_abs
    norm_num [min_def]
  · unfold distance vectorAB vector_abs
    norm_num

/-! ### C6, C7: shape mutators -/

/-- The rigid counterclockwise rotation of a point about a center, the
transform Shape.rotate applies to each vertex. -/
def rotAbout (angle : ℝ) (c v : Point) : Point :=
  (c.1 + ((v.1 - c.1) * Real.cos angle - (v.2 - c.2) * Real.sin angle),
   c.2 + ((v.1 - c.1) * Real.sin angle + (v.2 - c.2) * Real.cos angle))

lemma moved_by_neg_one (pts : List Point) (off : Point) :
    moved_by pts off (-1) = pts.map (fun p => (p.1 - off.1, p.2 - off.2)) := by
  unfold moved_by
  rw [if_neg (by norm_num : ¬ (0 : ℝ) ≤ -1)]
  show List.map (fun p => (p.1 + (-1 : ℝ) * off.1, p.2 + (-1 : ℝ) * off.2)) pts = _
  congr 1
  funext p
  simp only [Prod.mk.injEq]
  constructor <;> ring

lemma moved_by_one (pts : List Point) (off : Point) :
    moved_by pts off 1 = pts.map (fun p => (p.1 + off.1, p.2 + off.2)) := by
  unfold moved_by
  rw [if_pos (by norm_num : (0 : ℝ) ≤ 1)]
  show List.map (fun p => (p.1 + (1 : ℝ) * off.1, p.2 + (1 : ℝ) * off.2)) pts = _
  congr 1
  funext p
  simp only [Prod.mk.injEq]
  constructor <;> ring

lemma rotate_vertices (s : Shape) (angle : ℝ) :
    (s.rotate angle).vertices = s.vertices.map (rotAbout angle s.ref_point) := by
  unfold Shape.rotate
  rw [moved_by_neg_one, moved_by_one]
  simp only [List.map_map]
  congr 1
  funext v
  simp only [Function.comp_apply, rotAbout, Prod.mk.injEq]
  constructor <;> ring

lemma rotate_ref (s : Shape) (angle : ℝ) : (s.rotate angle).ref_point = s.ref_point := rfl

lemma applyMutator_r_inner (m : Mutator) (s : Shape) :
    (applyMutator s m).r_inner = s.r_inner := by
  cases m <;> rfl

lemma applyMutators_r_inner (ms : List Mutator) :
    ∀ s : Shape, (applyMutators s ms).r_inner = s.r_inner := by
  induction ms with
  | nil => intro s; rfl
  | cons m rest ih =>
      intro s
      show (List.foldl applyMutator (applyMutator s m) rest).r_inner = s.r_inner
      rw [show List.foldl applyMutator (applyMutator s m) rest
            = applyMutators (applyMutator s m) rest from rfl, ih, applyMutator_r_inner]

/-- C6: the inner radius survives every sequence of mutator calls
unchanged, and each mutator applies to the reference point exactly the
transform it applies to the vertices: rotate maps every vertex by
rotAbout around the reference point, which that transform fixes;
move_to shifts every vertex by (target - reference point) and sets the
reference point to the target; move_by shifts vertices and reference
point by the offset.  The reference point is never recomputed from the
vertices. -/
theorem mutators_preserve_invariants (s : Shape) (ms : List Mutator) :
    (applyMutators s ms).r_inner = s.r_inner
  ∧ (∀ angle, (s.rotate angle).vertices = s.vertices.map (rotAbout angle s.ref_point))
  ∧ (∀ angle, (s.rotate angle).ref_point = rotAbout angle s.ref_point s.ref_point)
  ∧ (∀ p, (s.move_to p).vertices = s.vertices.map (fun v =>
      (v.1 + (p.1 - s.ref_point.1), v.2 + (p.2 - s.ref_point.2))))
  ∧ (∀ p, (s.move_to p).ref_point = (s.ref_point.1 + (p.1 - s.ref_point.1),
      s.ref_point.2 + (p.2 - s.ref_point.2)))
  ∧ (∀ o, (s.move_by o).vertices = s.vertices.map (fun v => (v.1 + o.1, v.2 + o.2)))
  ∧ (∀ o, (s.move_by o).ref_point = (s.ref_point.1 + o.1, s.ref_point.2 + o.2)) := by
  refine ⟨applyMutators_r_inner ms s, rotate_vertices s, ?_, ?_, ?_, ?_, ?_⟩
  · intro angle
    rw [rotate_ref]
    apply Prod.ext
    · show s.ref_point.1 = _
      dsimp only [rotAbout]
      ring
    · show s.ref_point.2 = _
      dsimp only [rotAbout]
      ring
  · intro p
    show moved_by s.vertices ((moved_by [s.ref_point] p (-1)).headI) (-1) = _
    rw [moved_by_neg_one, moved_by_neg_one]
    simp only [List.map_cons, List.map_nil, List.headI_cons]
    congr 1
    funext v
    simp only [Prod.mk.injEq]
    constructor <;> ring
  · intro p
    show p = _
    apply Prod.ext
    · show p.1 = s.ref_point.1 + (p.1 - s.ref_point.1)
      ring
    · show p.2 = s.ref_point.2 + (p.2 - s.ref_point.2)
      ring
  · intro o
    show moved_by s.vertices o 1 = _
    rw [moved_by_one]
  · intro o
    show (moved_by [s.ref_point] o 1).headI = _
    rw [moved_by_one]
    simp only [List.map_cons, List.map_nil, List.headI_cons]

/-- C7: rotating a shape by an angle and then by its negation restores
the vertex sequence exactly over real arithmetic, and rotating by two
pi is the identity on the vertices. -/
theorem rotate_inverse_identity (s : Shape) (angle : ℝ) :
    ((s.rotate angle).rotate (-angle)).vertices = s.vertices
  ∧ (s.rotate (2 * Real.pi)).vertices = s.vertices := by
  constructor
  · rw [rotate_vertices, rotate_ref, rotate_vertices, List.map_map]
    have hfun : rotAbout (-angle) s.ref_point ∘ rotAbout angle s.ref_point = id := by
      funext v
      apply Prod.ext
      · simp only [Function.comp_apply, rotAbout, Real.cos_neg, Real.sin_neg, id_eq]
        linear_combination (v.1 - s.ref_point.1) * Real.sin_sq_add_cos_sq angle
      · simp only [Function.comp_apply, rotAbout, Real.cos_neg, Real.sin_neg, id_eq]
        linear_combination (v.2 - s.ref_point.2) * Real.sin_sq_add_cos_sq angle
    rw [hfun, List.map_id]
  · rw [rotate_vertices]
    have hfun : rotAbout (2 * Real.pi) s.ref_point = id := by
      funext v
      apply Prod.ext
      · simp only [rotAbout, Real.cos_two_pi, Real.sin_two_pi, id_eq]
        ring
      · simp only [rotAbout, Real.cos_two_pi, Real.sin_two_pi, id_eq]
        ring
    rw [hfun, List.map_id]

/-! ### C3: ranking, tie-breaking and the no-docking result -/

lemma keyLt_trans (a b c : ℝ × ℝ × ℝ) (h1 : keyLt a b) (h2 : keyLt b c) : keyLt a c := by
  unfold keyLt at *
  rcases h1 with h1 | ⟨e1, h1⟩
  · rcases h2 with h2 | ⟨e2, h2⟩
    · exact Or.inl (lt_trans h1 h2)
    · exact Or.inl (e2 ▸ h1)
  · rcases h2 with h2 | ⟨e2, h2⟩
    · exact Or.inl (by rw [e1]; exact h2)
    · refine Or.inr ⟨e1.trans e2, ?_⟩
      rcases h1 with h1 | ⟨f1, h1⟩
      · rcases h2 with h2 | ⟨f2, h2⟩
        · exact Or.inl (lt_trans h1 h2)
        · exact Or.inl (f2 ▸ h1)
      · rcases h2 with h2 | ⟨f2, h2⟩
        · exact Or.inl (by rw [f1]; exact h2)
        · exact Or.inr ⟨f1.trans f2, lt_trans h1 h2⟩

lemma keyLt_irrefl (a : ℝ × ℝ × ℝ) : ¬ keyLt a a := by
  unfold keyLt
  rintro (h | ⟨-, h | ⟨-, h⟩⟩) <;> exact lt_irrefl _ h

lemma keyLt_asymm (a b : ℝ × ℝ × ℝ) (h1 : keyLt a b) : ¬ keyLt b a :=
  fun h2 => keyLt_irrefl a (keyLt_trans a b a h1 h2)

lemma keyLt_total (a b : ℝ × ℝ × ℝ) : keyLt a b ∨ a = b ∨ keyLt b a := by
  unfold keyLt
  rcases lt_trichotomy a.1 b.1 with h | h | h
  · exact Or.inl (Or.inl h)
  · rcases lt_trichotomy a.2.1 b.2.1 with h1 | h1 | h1
    · exact Or.inl (Or.inr ⟨h, Or.inl h1⟩)
    · rcases lt_trichotomy a.2.2 b.2.2 with h2 | h2 | h2
      · exact Or.inl (Or.inr ⟨h, Or.inr ⟨h1, h2⟩⟩)
      · exact Or.inr (Or.inl (Prod.ext h (Prod.ext h1 h2)))
      · exact Or.inr (Or.inr (Or.inr ⟨h.symm, Or.inr ⟨h1.symm, h2⟩⟩))
    · exact Or.inr (Or.inr (Or.inr ⟨h.symm, Or.inl h1⟩))
  · exact Or.inr (Or.inr (Or.inl h))

lemma not_keyLt (a b : ℝ × ℝ × ℝ) (h : ¬ keyLt a b) : a = b ∨ keyLt b a :=
  (keyLt_total a b).resolve_left h

lemma step_some (b c : Cand) :
    step (some b) c = if keyLt b.1 c.1 then some c else some b := rfl

lemma foldl_step_some (l : List Cand) : ∀ b : Cand,
    ∃ r, l.foldl step (some b) = some r
      ∧ ¬ keyLt r.1 b.1
      ∧ (∀ e ∈ l, ¬ keyLt r.1 e.1)
      ∧ (r = b ∨ ∃ l₁ l₂, l = l₁ ++ r :: l₂ ∧ keyLt b.1 r.1 ∧ ∀ e ∈ l₁, keyLt e.1 r.1) := by
  induction l with
  | nil =>
      intro b
      exact ⟨b, rfl, keyLt_irrefl _, by simp, Or.inl rfl⟩
  | cons x xs ih =>
      intro b
      by_cases hbx : keyLt b.1 x.1
      · obtain ⟨r, hr, hrx, hrl, hdisj⟩ := ih x
        refine ⟨r, ?_, ?_, ?_, ?_⟩
        · rw [List.foldl_cons, step_some, if_pos hbx]
          exact hr
        · intro hrb
          exact hrx (keyLt_trans _ _ _ hrb hbx)
        · intro e he
          rcases List.mem_cons.mp he with rfl | he'
          · exact hrx
          · exact hrl e he'
        · rcases hdisj with rfl | ⟨l₁, l₂, heq, hxr, hpre⟩
          · exact Or.inr ⟨[], xs, by simp, hbx, by simp⟩
          · refine Or.inr ⟨x :: l₁, l₂, by rw [heq]; rfl, keyLt_trans _ _ _ hbx hxr, ?_⟩
            intro e he
            rcases List.mem_cons.mp he with rfl | he'
            · exact hxr
            · exact hpre e he'
      · obtain ⟨r, hr, hrb, hrl, hdisj⟩ := ih b
        refine ⟨r, ?_, hrb, ?_, ?_⟩
        · rw [List.foldl_cons, step_some, if_neg hbx]
          exact hr
        · intro e he
          rcases List.mem_cons.mp he with rfl | he'
          · intro hre
            rcases not_keyLt _ _ hbx with heq1 | hxb
            · rw [heq1] at hrb
              exact hrb hre
            · exact hrb (keyLt_trans _ _ _ hre hxb)
          · exact hrl e he'
        · rcases hdisj with rfl | ⟨l₁, l₂, heq, hbr, hpre⟩
          · exact Or.inl rfl
          · refine Or.inr ⟨x :: l₁, l₂, by rw [heq]; rfl, hbr, ?_⟩
            intro e he
            rcases List.mem_cons.mp he with rfl | he'
            · rcases not_keyLt _ _ hbx with heq1 | hxb
              · rw [← heq1]
                exact hbr
              · exact keyLt_trans _ _ _ hxb hbr
            · exact hpre e he'

/-- C3: among the surviving candidates gravity returns the pair of the
earliest candidate with a maximal ranking key (first floating edge,
then static shape, then static edge in enumeration order): the result
is none exactly when no candidate survives, and any returned pair
belongs to a candidate that no candidate strictly beats and that
strictly beats every candidate enumerated before it. -/
theorem gravity_ranking (static : List (List Point)) (floating : List Point)
    (angC distT manuRot : ℝ) (manuMove : Point) :
    (gravity static floating angC distT manuRot manuMove = none
      ↔ candidates static floating angC distT manuRot manuMove = [])
  ∧ (∀ p, gravity static floating angC distT manuRot manuMove = some p →
      ∃ l₁ c l₂, candidates static floating angC distT manuRot manuMove = l₁ ++ c :: l₂
        ∧ c.2 = p
        ∧ (∀ e ∈ candidates static floating angC distT manuRot manuMove, ¬ keyLt c.1 e.1)
        ∧ (∀ e ∈ l₁, keyLt e.1 c.1)) := by
  have main : ∀ cs : List Cand,
      ((cs.foldl step none).map (fun c => c.2) = none ↔ cs = [])
    ∧ (∀ p, (cs.foldl step none).map (fun c => c.2) = some p →
        ∃ l₁ c l₂, cs = l₁ ++ c :: l₂ ∧ c.2 = p ∧ (∀ e ∈ cs, ¬ keyLt c.1 e.1)
          ∧ (∀ e ∈ l₁, keyLt e.1 c.1)) := by
    intro cs
    cases cs with
    | nil =>
        constructor
        · simp
        · intro p hp
          simp at hp
    | cons x xs =>
        obtain ⟨r, hr, hrx, hrl, hdisj⟩ := foldl_step_some xs x
        have hfold : (x :: xs).foldl step none = some r := by
          rw [List.foldl_cons, show step none x = some x from rfl]
          exact hr
        constructor
        · rw [hfold]
          constructor
          · intro hn
            exact absurd hn (by simp)
          · intro h
            exact absurd h (by simp)
        · intro p hp
          rw [hfold] at hp
          have hp2 : r.2 = p := by simpa using hp
          rcases hdisj with rfl | ⟨l₁, l₂, heq, hxr, hpre⟩
          · refine ⟨[], r, xs, by simp, hp2, ?_, by simp⟩
            intro e he
            rcases List.mem_cons.mp he with rfl | he'
            · exact keyLt_irrefl _
            · exact hrl e he'
          · refine ⟨x :: l₁, r, l₂, by rw [heq]; rfl, hp2, ?_, ?_⟩
            · intro e he
              rcases List.mem_cons.mp he with rfl | he'
              · exact hrx
              · exact hrl e he'
            · intro e he
              rcases List.mem_cons.mp he with rfl | he'
              · exact hxr
              · exact hpre e he'
  unfold gravity
  exact main (candidates static floating angC distT manuRot manuMove)

/-- Witness for C3 at the empty scene, where no candidate survives and
the result is the distinguished no-docking value. -/
theorem gravity_ranking_witness :
    gravity [] [] 0 0 0 ((0 : ℝ), (0 : ℝ)) = none :=
  (gravity_ranking [] [] 0 0 0 ((0 : ℝ), (0 : ℝ))).1.mpr rfl

/-! ### C8: the already-docked scene -/

lemma vector_abs_sq (A : Point) : vector_abs A ^ 2 = A.1 ^ 2 + A.2 ^ 2 :=
  Real.sq_sqrt (by positivity)

lemma overlapping_eval (fe se : Point × Point) :
    overlapping fe se = vector_abs (vectorAB se.1 se.2) *
      (min (scalar_product (vectorAB se.1 se.2) (vectorAB se.1 fe.1)
            / ((vectorAB se.1 se.2).1 ^ 2 + (vectorAB se.1 se.2).2 ^ 2)) 1
       - max (scalar_product (vectorAB se.1 se.2) (vectorAB se.1 fe.2)
            / ((vectorAB se.1 se.2).1 ^ 2 + (vectorAB se.1 se.2).2 ^ 2)) 0) := by
  unfold overlapping
  rw [vector_abs_sq]

lemma motion_pass (fe : Point × Point) :
    ¬ x_product (vectorAB fe.1 fe.2) ((0 : ℝ), (0 : ℝ)) > PRECISION := by
  unfold x_product vectorAB PRECISION
  norm_num

lemma Dval_not_pos_left (fe se : Point × Point)
    (h : point_to_line_distance fe.1 se.1 (vectorAB se.1 se.2) = 0) :
    ¬ Dval fe se > 0 := by
  intro hgt
  unfold Dval at hgt
  rw [h] at hgt
  have := min_le_left (0 : ℝ) (point_to_line_distance fe.2 se.1 (vectorAB se.1 se.2))
  linarith

lemma Dval_not_pos_right (fe se : Point × Point)
    (h : point_to_line_distance fe.2 se.1 (vectorAB se.1 se.2) = 0) :
    ¬ Dval fe se > 0 := by
  intro hgt
  unfold Dval at hgt
  rw [h] at hgt
  have := min_le_right (point_to_line_distance fe.1 se.1 (vectorAB se.1 se.2)) (0 : ℝ)
  linarith

lemma precision_le_sqrt_eight : PRECISION ≤ Real.sqrt 8 := by
  calc PRECISION ≤ 1 := by unfold PRECISION; norm_num
    _ = Real.sqrt 1 := Real.sqrt_one.symm
    _ ≤ Real.sqrt 8 := Real.sqrt_le_sqrt (by norm_num)

/-- C8: on the already-docked scene of the self-tests, with zero
distance threshold, zero rotate sign, zero manual move and any
angular threshold cosine that never filters (at most -1), gravity
returns exactly the static edge ((5,2),(3,4)) paired with the floating
edge ((3,4),(5,2)), not the no-docking value. -/
theorem gravity_already_docked (angC : ℝ) (h : angC ≤ -1) :
    gravity [[((2 : ℝ), 1), ((5 : ℝ), 2), ((3 : ℝ), 4)]]
        [((3 : ℝ), 4), ((5 : ℝ), 2), ((4 : ℝ), 6)] angC 0 0 ((0 : ℝ), (0 : ℝ))
      = some ((((5 : ℝ), (2 : ℝ)), ((3 : ℝ), (4 : ℝ))),
              (((3 : ℝ), (4 : ℝ)), ((5 : ℝ), (2 : ℝ)))) := by
  have hP := PRECISION_pos
  -- the three floating edges
  have hedf : edges [((3 : ℝ), 4), ((5 : ℝ), 2), ((4 : ℝ), 6)]
      = [(((4 : ℝ), 6), ((3 : ℝ), 4)), (((3 : ℝ), 4), ((5 : ℝ), 2)),
         (((5 : ℝ), 2), ((4 : ℝ), 6))] := rfl
  have heds : edges [((2 : ℝ), 1), ((5 : ℝ), 2), ((3 : ℝ), 4)]
      = [(((3 : ℝ), 4), ((2 : ℝ), 1)), (((2 : ℝ), 1), ((5 : ℝ), 2)),
         (((5 : ℝ), 2), ((3 : ℝ), 4))] := rfl
  -- pair (f1, s1): passes proximity (head on the line), dies at overlap
  have hp11 : pairParam angC 0 0 (((4 : ℝ), 6), ((3 : ℝ), 4)) (((3 : ℝ), 4), ((2 : ℝ), 1))
      = none := by
    apply pairParam_none_overlap angC 0 0 _ _ (rot_zero_pass _)
      (Dval_not_pos_right _ _ (by
        unfold point_to_line_distance x_product vectorAB
        norm_num))
      (cos_pass_of_le angC h _ _)
    rw [overlapping_eval]
    have hb := vector_abs_nonneg (vectorAB (((3 : ℝ), 4), ((2 : ℝ), 1)).1
      (((3 : ℝ), 4), ((2 : ℝ), 1)).2)
    unfold scalar_product vectorAB at *
    norm_num [min_def, max_def] at *
    nlinarith
  -- pair (f2, s1): passes proximity (tail on the line), dies at overlap
  have hp21 : pairParam angC 0 0 (((3 : ℝ), 4), ((5 : ℝ), 2)) (((3 : ℝ), 4), ((2 : ℝ), 1))
      = none := by
    apply pairParam_none_overlap angC 0 0 _ _ (rot_zero_pass _)
      (Dval_not_pos_left _ _ (by
        unfold point_to_line_distance x_product vectorAB
        norm_num))
      (cos_pass_of_le angC h _ _)
    rw [overlapping_eval]
    have hb := vector_abs_nonneg (vectorAB (((3 : ℝ), 4), ((2 : ℝ), 1)).1
      (((3 : ℝ), 4), ((2 : ℝ), 1)).2)
    unfold scalar_product vectorAB at *
    norm_num [min_def, max_def] at *
    nlinarith
  -- pair (f3, s1): dies at proximity, both endpoints off the line
  have hp31 : pairParam angC 0 0 (((5 : ℝ), 2), ((4 : ℝ), 6)) (((3 : ℝ), 4), ((2 : ℝ), 1))
      = none := by
    apply pairParam_none_D angC 0 0 _ _ (rot_zero_pass _)
    show (0 : ℝ) < _
    unfold Dval point_to_line_distance x_product vectorAB vector_abs
    norm_num
  -- pair (f1, s2): dies at proximity
  have hp12 : pairParam angC 0 0 (((4 : ℝ), 6), ((3 : ℝ), 4)) (((2 : ℝ), 1), ((5 : ℝ), 2))
      = none := by
    apply pairParam_none_D angC 0 0 _ _ (rot_zero_pass _)
    show (0 : ℝ) < _
    unfold Dval point_to_line_distance x_product vectorAB vector_abs
    norm_num
  -- pair (f2, s2): passes proximity (head on the line), dies at overlap
  have hp22 : pairParam angC 0 0 (((3 : ℝ), 4), ((5 : ℝ), 2)) (((2 : ℝ), 1), ((5 : ℝ), 2))
      = none := by
    apply pairParam_none_overlap angC 0 0 _ _ (rot_zero_pass _)
      (Dval_not_pos_right _ _ (by
        unfold point_to_line_distance x_product vectorAB
        norm_num))
      (cos_pass_of_le angC h _ _)
    rw [overlapping_eval]
    have hb := vector_abs_nonneg (vectorAB (((2 : ℝ), 1), ((5 : ℝ), 2)).1
      (((2 : ℝ), 1), ((5 : ℝ), 2)).2)
    unfold scalar_product vectorAB at *
    norm_num [min_def, max_def] at *
    nlinarith
  -- pair (f3, s2): passes proximity (tail on the line), dies at overlap
  have hp32 : pairParam angC 0 0 (((5 : ℝ), 2), ((4 : ℝ), 6)) (((2 : ℝ), 1), ((5 : ℝ), 2))
      = none := by
    apply pairParam_none_overlap angC 0 0 _ _ (rot_zero_pass _)
      (Dval_not_pos_left _ _ (by
        unfold point_to_line_distance x_product vectorAB
        norm_num))
      (cos_pass_of_le angC h _ _)
    rw [overlapping_eval]
    have hb := vector_abs_nonneg (vectorAB (((2 : ℝ), 1), ((5 : ℝ), 2)).1
      (((2 : ℝ), 1), ((5 : ℝ), 2)).2)
    unfold scalar_product vectorAB at *
    norm_num [min_def, max_def] at *
    nlinarith
  -- pair (f1, s3): passes proximity (head on the line), zero overlap
  have hp13 : pairParam angC 0 0 (((4 : ℝ), 6), ((3 : ℝ), 4)) (((5 : ℝ), 2), ((3 : ℝ), 4))
      = none := by
    apply pairParam_none_overlap angC 0 0 _ _ (rot_zero_pass _)
      (Dval_not_pos_right _ _ (by
        unfold point_to_line_distance x_product vectorAB
        norm_num))
      (cos_pass_of_le angC h _ _)
    rw [overlapping_eval]
    have hb := vector_abs_nonneg (vectorAB (((5 : ℝ), 2), ((3 : ℝ), 4)).1
      (((5 : ℝ), 2), ((3 : ℝ), 4)).2)
    unfold scalar_product vectorAB at *
    norm_num [min_def, max_def] at *
    nlinarith
  -- pair (f3, s3): passes proximity (tail on the line), dies at overlap
  have hp33 : pairParam angC 0 0 (((5 : ℝ), 2), ((4 : ℝ), 6)) (((5 : ℝ), 2), ((3 : ℝ), 4))
      = none := by
    apply pairParam_none_overlap angC 0 0 _ _ (rot_zero_pass _)
      (Dval_not_pos_left _ _ (by
        unfold point_to_line_distance x_product vectorAB
        norm_num))
      (cos_pass_of_le angC h _ _)
    rw [overlapping_eval]
    have hb := vector_abs_nonneg (vectorAB (((5 : ℝ), 2), ((3 : ℝ), 4)).1
      (((5 : ℝ), 2), ((3 : ℝ), 4)).2)
    unfold scalar_product vectorAB at *
    norm_num [min_def, max_def] at *
    nlinarith
  -- pair (f2, s3): the surviving coincident antiparallel pair
  have habs8 : vector_abs (vectorAB ((5 : ℝ), 2) ((3 : ℝ), 4)) = Real.sqrt 8 := by
    unfold vector_abs vectorAB
    norm_num
  have hD23 : Dval (((3 : ℝ), 4), ((5 : ℝ), 2)) (((5 : ℝ), 2), ((3 : ℝ), 4)) = 0 := by
    unfold Dval point_to_line_distance x_product vectorAB
    norm_num
  have hcos23 : cos_theta (((3 : ℝ), 4), ((5 : ℝ), 2)) (((5 : ℝ), 2), ((3 : ℝ), 4)) = 1 := by
    unfold cos_theta scalar_product distance vectorAB vector_abs
    norm_num
  have hov23 : overlapping (((3 : ℝ), 4), ((5 : ℝ), 2)) (((5 : ℝ), 2), ((3 : ℝ), 4))
      = Real.sqrt 8 := by
    rw [overlapping_eval]
    show vector_abs (vectorAB ((5 : ℝ), 2) ((3 : ℝ), 4)) * _ = _
    rw [habs8]
    unfold scalar_product vectorAB
    norm_num
  have hp23 : pairParam angC 0 0 (((3 : ℝ), 4), ((5 : ℝ), 2)) (((5 : ℝ), 2), ((3 : ℝ), 4))
      = some (0, 1, Real.sqrt 8) := by
    rw [pairParam_some angC 0 0 _ _ (rot_zero_pass _)
      (by rw [gt_iff_lt, hD23]; norm_num)
      (cos_pass_of_le angC h _ _)
      (by rw [hov23, not_lt]; exact precision_le_sqrt_eight)]
    rw [hD23, hcos23, hov23]
    norm_num
  -- assemble the candidate list
  have hcand : candidates [[((2 : ℝ), 1), ((5 : ℝ), 2), ((3 : ℝ), 4)]]
      [((3 : ℝ), 4), ((5 : ℝ), 2), ((4 : ℝ), 6)] angC 0 0 ((0 : ℝ), (0 : ℝ))
      = [(((0 : ℝ), (1 : ℝ), Real.sqrt 8),
          ((((5 : ℝ), (2 : ℝ)), ((3 : ℝ), (4 : ℝ))),
           (((3 : ℝ), (4 : ℝ)), ((5 : ℝ), (2 : ℝ)))))] := by
    unfold candidates
    rw [hedf]
    simp only [List.flatMap_cons, List.flatMap_nil, List.append_nil]
    rw [if_neg (motion_pass (((4 : ℝ), 6), ((3 : ℝ), 4))),
        if_neg (motion_pass (((3 : ℝ), 4), ((5 : ℝ), 2))),
        if_neg (motion_pass (((5 : ℝ), 2), ((4 : ℝ), 6)))]
    rw [heds]
    simp only [List.filterMap_cons, List.filterMap_nil, hp11, hp21, hp31, hp12, hp22,
      hp32, hp13, hp23, hp33, Option.map_some', Option.map_none', List.append_nil,
      List.nil_append]
  unfold gravity
  rw [hcand]
  rfl

/-- Witness for C8 with the unconstrained angular threshold -2. -/
theorem gravity_already_docked_witness :
    gravity [[((2 : ℝ), 1), ((5 : ℝ), 2), ((3 : ℝ), 4)]]
        [((3 : ℝ), 4), ((5 : ℝ), 2), ((4 : ℝ), 6)] (-2) 0 0 ((0 : ℝ), (0 : ℝ))
      = some ((((5 : ℝ), (2 : ℝ)), ((3 : ℝ), (4 : ℝ))),
              (((3 : ℝ), (4 : ℝ)), ((5 : ℝ), (2 : ℝ)))) :=
  gravity_already_docked (-2) (by norm_num)

/-! ### C5: triangle construction degeneracy -/

lemma intersection_eq_none_iff (baseA dirA baseB dirB : Point) :
    intersection baseA dirA baseB dirB = none
      ↔ scalar_product (transposed dirB) dirA = 0 := by
  simp only [intersection]
  by_cases hz : scalar_product (transposed dirB) dirA = 0
  · rw [if_pos hz]
    simp [hz]
  · rw [if_neg hz]
    simp [hz]

lemma bisector_denom (A B C : Point) :
    scalar_product
      (transposed (Real.cos ((inclination B C + (inclination C A + Real.pi)) / 2),
                   Real.sin ((inclination B C + (inclination C A + Real.pi)) / 2)))
      (Real.cos ((inclination B A + inclination C A) / 2),
       Real.sin ((inclination B A + inclination C A) / 2))
    = Real.sin ((inclination B A - inclination B C - Real.pi) / 2) := by
  unfold scalar_product transposed
  dsimp only
  rw [show (inclination B A - inclination B C - Real.pi) / 2
      = (inclination B A + inclination C A) / 2
        - (inclination B C + (inclination C A + Real.pi)) / 2 by ring]
  rw [Real.sin_sub]
  ring

lemma triangle_eq_none_iff_sin (A B C : Point) :
    triangle A B C = none
      ↔ Real.sin ((inclination B A - inclination B C - Real.pi) / 2) = 0 := by
  simp only [triangle]
  rw [Option.map_eq_none', intersection_eq_none_iff, bisector_denom]

lemma sin_half_shift_eq_zero_iff (x : ℝ) :
    Real.sin ((x - Real.pi) / 2) = 0 ↔ Real.cos x = -1 := by
  constructor
  · intro hs
    obtain ⟨n, hn⟩ := Real.sin_eq_zero_iff.mp hs
    have hx : x = Real.pi + (n : ℝ) * (2 * Real.pi) := by
      linear_combination (-2 : ℝ) * hn
    rw [hx, Real.cos_add_int_mul_two_pi, Real.cos_pi]
  · intro hc
    have h1 : Real.cos (x + Real.pi) = 1 := by
      rw [Real.cos_add, Real.cos_pi, Real.sin_pi, hc]
      ring
    obtain ⟨n, hn⟩ := (Real.cos_eq_one_iff (x + Real.pi)).mp h1
    have hx : (x - Real.pi) / 2 = ((n - 1 : ℤ) : ℝ) * Real.pi := by
      push_cast
      linear_combination ((-1 : ℝ) / 2) * hn
    rw [hx]
    exact Real.sin_int_mul_pi _

lemma mk_eq_zero_iff (u : Point) :
    (⟨u.1, u.2⟩ : ℂ) = 0 ↔ u = ((0 : ℝ), (0 : ℝ)) := by
  rw [Complex.ext_iff, Prod.ext_iff]
  simp

lemma abs_mk_eq (u : Point) : Complex.abs ⟨u.1, u.2⟩ = vector_abs u := by
  unfold vector_abs
  rw [Complex.abs_apply, Complex.normSq_mk]
  congr 1
  ring

lemma vector_abs_pos_of_ne (u : Point) (h : u ≠ ((0 : ℝ), (0 : ℝ))) :
    0 < vector_abs u := by
  unfold vector_abs
  apply Real.sqrt_pos.mpr
  rcases eq_or_ne u.1 0 with h1 | h1
  · rcases eq_or_ne u.2 0 with h2 | h2
    · exact absurd (Prod.ext h1 h2) h
    · have := mul_self_pos.mpr h2
      nlinarith [sq_nonneg u.1]
  · have := mul_self_pos.mpr h1
    nlinarith [sq_nonneg u.2]

lemma div_abs_eq_neg_one_iff (w : Point) (hw : w ≠ ((0 : ℝ), (0 : ℝ))) :
    w.1 / vector_abs w = -1 ↔ w.2 = 0 ∧ w.1 < 0 := by
  have ha : 0 < vector_abs w := vector_abs_pos_of_ne w hw
  constructor
  · intro h
    rw [div_eq_iff (ne_of_gt ha)] at h
    have hsq : w.1 ^ 2 = vector_abs w ^ 2 := by rw [h]; ring
    rw [vector_abs_sq] at hsq
    have h2 : w.2 ^ 2 = 0 := by linarith
    exact ⟨sq_eq_zero_iff.mp h2, by nlinarith⟩
  · rintro ⟨h2, h1⟩
    have hab : vector_abs w = -w.1 := by
      unfold vector_abs
      rw [h2, show w.1 ^ 2 + (0 : ℝ) ^ 2 = (-w.1) ^ 2 by ring]
      exact Real.sqrt_sq (by linarith)
    rw [hab, div_eq_iff (ne_of_gt (neg_pos.mpr h1))]
    ring

lemma dot_eq_neg_mul_iff (u w : Point) (hu : 0 < vector_abs u) (hw : 0 < vector_abs w) :
    scalar_product u w = -(vector_abs u * vector_abs w)
      ↔ x_product u w = 0 ∧ scalar_product u w < 0 := by
  have ha := vector_abs_sq u
  have hb := vector_abs_sq w
  have lag : scalar_product u w ^ 2 + x_product u w ^ 2
      = (u.1 ^ 2 + u.2 ^ 2) * (w.1 ^ 2 + w.2 ^ 2) := by
    unfold scalar_product x_product
    ring
  have hab2 : (vector_abs u * vector_abs w) ^ 2
      = (u.1 ^ 2 + u.2 ^ 2) * (w.1 ^ 2 + w.2 ^ 2) := by
    rw [mul_pow, ha, hb]
  have habpos : 0 < vector_abs u * vector_abs w := mul_pos hu hw
  constructor
  · intro h
    have hd : scalar_product u w < 0 := by linarith
    refine ⟨?_, hd⟩
    have hsq : scalar_product u w ^ 2 = (vector_abs u * vector_abs w) ^ 2 := by
      rw [h]; ring
    have hx2 : x_product u w ^ 2 = 0 := by linarith
    exact sq_eq_zero_iff.mp hx2
  · rintro ⟨hx, hd⟩
    have hsq : scalar_product u w ^ 2 = (vector_abs u * vector_abs w) ^ 2 := by
      rw [hab2, ← lag, hx]
      ring
    have hfac : (scalar_product u w - vector_abs u * vector_abs w)
        * (scalar_product u w + vector_abs u * vector_abs w) = 0 := by
      linear_combination hsq
    rcases mul_eq_zero.mp hfac with h' | h'
    · exfalso
      have : scalar_product u w = vector_abs u * vector_abs w := by linarith
      linarith
    · linarith

lemma cos_arg_sub_arg (u w : Point) :
    Real.cos (Complex.arg ⟨u.1, u.2⟩ - Complex.arg ⟨w.1, w.2⟩) = -1
      ↔ ((u ≠ ((0 : ℝ), (0 : ℝ)) ∧ w ≠ ((0 : ℝ), (0 : ℝ)) ∧ x_product u w = 0 ∧
            scalar_product u w < 0)
        ∨ (u = ((0 : ℝ), (0 : ℝ)) ∧ w.2 = 0 ∧ w.1 < 0)
        ∨ (w = ((0 : ℝ), (0 : ℝ)) ∧ u.2 = 0 ∧ u.1 < 0)) := by
  by_cases hu : u = ((0 : ℝ), (0 : ℝ))
  · by_cases hw : w = ((0 : ℝ), (0 : ℝ))
    · subst hu
      subst hw
      rw [(mk_eq_zero_iff _).mpr rfl, Complex.arg_zero, sub_zero, Real.cos_zero]
      constructor
      · intro h
        norm_num at h
      · rintro (⟨hne, -⟩ | ⟨-, -, hlt⟩ | ⟨-, -, hlt⟩)
        · exact absurd rfl hne
        · norm_num at hlt
        · norm_num at hlt
    · subst hu
      have hwz : (⟨w.1, w.2⟩ : ℂ) ≠ 0 := fun hh => hw ((mk_eq_zero_iff w).mp hh)
      rw [(mk_eq_zero_iff _).mpr rfl, Complex.arg_zero, zero_sub, Real.cos_neg,
        Complex.cos_arg hwz, abs_mk_eq]
      show w.1 / vector_abs w = -1 ↔ _
      rw [div_abs_eq_neg_one_iff w hw]
      constructor
      · intro hcond
        exact Or.inr (Or.inl ⟨rfl, hcond⟩)
      · rintro (⟨hne, -⟩ | ⟨-, hcond⟩ | ⟨hwz0, -⟩)
        · exact absurd rfl hne
        · exact hcond
        · exact absurd hwz0 hw
  · by_cases hw : w = ((0 : ℝ), (0 : ℝ))
    · subst hw
      have huz : (⟨u.1, u.2⟩ : ℂ) ≠ 0 := fun hh => hu ((mk_eq_zero_iff u).mp hh)
      rw [(mk_eq_zero_iff _).mpr rfl, Complex.arg_zero, sub_zero,
        Complex.cos_arg huz, abs_mk_eq]
      show u.1 / vector_abs u = -1 ↔ _
      rw [div_abs_eq_neg_one_iff u hu]
      constructor
      · intro hcond
        exact Or.inr (Or.inr ⟨rfl, hcond⟩)
      · rintro (⟨-, hne, -⟩ | ⟨huz0, -⟩ | ⟨-, hcond⟩)
        · exact absurd rfl hne
        · exact absurd huz0 hu
        · exact hcond
    · have huz : (⟨u.1, u.2⟩ : ℂ) ≠ 0 := fun hh => hu ((mk_eq_zero_iff u).mp hh)
      have hwz : (⟨w.1, w.2⟩ : ℂ) ≠ 0 := fun hh => hw ((mk_eq_zero_iff w).mp hh)
      have hau : 0 < vector_abs u := vector_abs_pos_of_ne u hu
      have haw : 0 < vector_abs w := vector_abs_pos_of_ne w hw
      rw [Real.cos_sub, Complex.cos_arg huz, Complex.cos_arg hwz,
        Complex.sin_arg, Complex.sin_arg, abs_mk_eq, abs_mk_eq]
      show u.1 / vector_abs u * (w.1 / vector_abs w)
          + u.2 / vector_abs u * (w.2 / vector_abs w) = -1 ↔ _
      have hkey : u.1 / vector_abs u * (w.1 / vector_abs w)
          + u.2 / vector_abs u * (w.2 / vector_abs w)
          = scalar_product u w / (vector_abs u * vector_abs w) := by
        unfold scalar_product
        field_simp
      rw [hkey, div_eq_iff (ne_of_gt (mul_pos hau haw)),
        show (-1 : ℝ) * (vector_abs u * vector_abs w)
          = -(vector_abs u * vector_abs w) by ring,
        dot_eq_neg_mul_iff u w hau haw]
      constructor
      · intro hcond
        exact Or.inl ⟨hu, hw, hcond⟩
      · rintro (⟨-, -, hcond⟩ | ⟨huz0, -⟩ | ⟨hwz0, -⟩)
        · exact hcond
        · exact absurd huz0 hu
        · exact absurd hwz0 hw

/-- C5 amended: triangle construction fails (the bisector intersection
divides by zero, a Python ZeroDivisionError at construction time)
exactly when the two averaged bisector rays are parallel, which happens
iff the vectors B-to-A and B-to-C are antiparallel (collinear vertices
with B strictly between A and C), or one of those vectors is zero while
the other points along the negative x axis (the atan2 0 0 = 0
artifact); in particular every non-collinear triple constructs
successfully, but a collinear triple with B outside the open segment
A-C also constructs successfully, contrary to the claim. -/
theorem triangle_degenerate_characterization (A B C : Point) :
    (triangle A B C = none ↔ bisectorParallel A B C)
  ∧ (x_product (vectorAB B A) (vectorAB B C) ≠ 0 → (triangle A B C).isSome = true) := by
  have hmain : triangle A B C = none ↔ bisectorParallel A B C := by
    rw [triangle_eq_none_iff_sin, sin_half_shift_eq_zero_iff]
    unfold bisectorParallel
    exact cos_arg_sub_arg (vectorAB B A) (vectorAB B C)
  refine ⟨hmain, fun hx => ?_⟩
  rcases ho : triangle A B C with _ | s
  · exfalso
    have hb := hmain.mp ho
    unfold bisectorParallel at hb
    rcases hb with ⟨-, -, hc, -⟩ | ⟨hu0, -, -⟩ | ⟨hw0, -, -⟩
    · exact hx hc
    · apply hx
      rw [hu0]
      unfold x_product
      norm_num
    · apply hx
      rw [hw0]
      unfold x_product
      norm_num
  · rfl

/-- C5 counterexample: the collinear triple A = (0,0), B = (2,0),
C = (1,0) does not fail: the two bisector rays are not parallel there
and construction succeeds, against the claim that every collinear
triple raises DegenerateGeometry. -/
theorem triangle_collinear_cex :
    collinear3 ((0 : ℝ), 0) ((2 : ℝ), 0) ((1 : ℝ), 0)
  ∧ (triangle ((0 : ℝ), 0) ((2 : ℝ), 0) ((1 : ℝ), 0)).isSome = true := by
  constructor
  · unfold collinear3 x_product vectorAB
    norm_num
  · have hBAX : inclination ((2 : ℝ), 0) ((0 : ℝ), 0) = Real.pi := by
      have hc : (⟨(vectorAB ((2 : ℝ), 0) ((0 : ℝ), 0)).1,
          (vectorAB ((2 : ℝ), 0) ((0 : ℝ), 0)).2⟩ : ℂ) = ((-2 : ℝ) : ℂ) := by
        apply Complex.ext
        · show (vectorAB ((2 : ℝ), 0) ((0 : ℝ), 0)).1 = _
          unfold vectorAB
          norm_num [Complex.ofReal_re]
        · show (vectorAB ((2 : ℝ), 0) ((0 : ℝ), 0)).2 = _
          unfold vectorAB
          norm_num [Complex.ofReal_im]
      unfold inclination
      rw [hc]
      exact Complex.arg_ofReal_of_neg (by norm_num)
    have hBCX : inclination ((2 : ℝ), 0) ((1 : ℝ), 0) = Real.pi := by
      have hc : (⟨(vectorAB ((2 : ℝ), 0) ((1 : ℝ), 0)).1,
          (vectorAB ((2 : ℝ), 0) ((1 : ℝ), 0)).2⟩ : ℂ) = ((-1 : ℝ) : ℂ) := by
        apply Complex.ext
        · show (vectorAB ((2 : ℝ), 0) ((1 : ℝ), 0)).1 = _
          unfold vectorAB
          norm_num [Complex.ofReal_re]
        · show (vectorAB ((2 : ℝ), 0) ((1 : ℝ), 0)).2 = _
          unfold vectorAB
          norm_num [Complex.ofReal_im]
      unfold inclination
      rw [hc]
      exact Complex.arg_ofReal_of_neg (by norm_num)
    have hne : triangle ((0 : ℝ), 0) ((2 : ℝ), 0) ((1 : ℝ), 0) ≠ none := by
      intro h
      rw [triangle_eq_none_iff_sin, hBAX, hBCX,
        show (Real.pi - Real.pi - Real.pi) / 2 = -(Real.pi / 2) by ring,
        Real.sin_neg, Real.sin_pi_div_two] at h
      norm_num at h
    rcases ho : triangle ((0 : ℝ), 0) ((2 : ℝ), 0) ((1 : ℝ), 0) with _ | s
    · exact absurd ho hne
    · rfl

/-- Witness for C5 amended at a concrete non-collinear triple, whose
construction succeeds. -/
theorem triangle_degenerate_characterization_witness :
    (triangle ((0 : ℝ), 0) ((1 : ℝ), 0) ((0 : ℝ), 1)).isSome = true :=
  (triangle_degenerate_characterization ((0 : ℝ), 0) ((1 : ℝ), 0) ((0 : ℝ), 1)).2
    (by unfold x_product vectorAB; norm_num)

end

end Pytang
